import Mathlib

/-!
Verification development for the multi-agent conversation relay engine:
the session registry (`MultiAgentWebSocketManager`), the upstream stream
parser (`JiutianStreamParser`), the per-agent dispatcher (`call_jiutian_api`),
the fan-out coordinator (`process_multi_chat_request`) and the HTTP
submission endpoint (`multi_chat`), embedded as pure Lean functions.

Python dictionaries are embedded as association lists (`lookupMap`,
`insertMap`, `updMap`, `eraseMap`); Python sets as duplicate-free lists;
timestamps as integers.  Each decoded upstream JSON record is embedded as a
structure carrying exactly the fields the code inspects (`response`,
`delta`, `finished`, `Usage`, `relevant`); a field that is absent, `null`,
or of a non-string shape the code's comparisons reject is `none`.
-/

namespace OpenLingxi

/-! ## Association-list maps (embedding of Python `dict`) -/

/-- `d.get(k)` / `k in d` on a Python dict, as first-match lookup. -/
def lookupMap {β : Type} (k : String) : List (String × β) → Option β
  | [] => none
  | (k', v) :: rest => if k' = k then some v else lookupMap k rest

/-- In-place update of the value stored at `k` (no-op on absent keys). -/
def updMap {β : Type} (k : String) (f : β → β) (m : List (String × β)) :
    List (String × β) :=
  m.map (fun p => if p.1 = k then (p.1, f p.2) else p)

/-- `d[k] = v`: overwrite when present, insert when absent. -/
def insertMap {β : Type} (k : String) (v : β) (m : List (String × β)) :
    List (String × β) :=
  if (lookupMap k m).isSome then updMap k (fun _ => v) m else (k, v) :: m

/-- `del d[k]`. -/
def eraseMap {β : Type} (k : String) (m : List (String × β)) :
    List (String × β) :=
  m.filter (fun p => p.1 ≠ k)

/-- `s.add(x)` on a Python set represented as a duplicate-free list. -/
def insertSet (x : String) (s : List String) : List String :=
  if x ∈ s then s else x :: s

/-! ## Stream records and `JiutianStreamParser.is_stream_complete` -/

/-- A decoded upstream stream record (one JSON dictionary), keeping the
fields `call_jiutian_api` and `is_stream_complete` read. -/
structure Record where
  response : Option String := none
  delta : Option String := none
  finished : Option String := none
  usage : Option String := none
  relevant : Option String := none
  deriving Repr, DecidableEq

/-- `JiutianStreamParser.is_stream_complete`:
`data.get("finished") == "Stop" or data.get("delta") == "[EOS]" or "Usage" in data`. -/
def is_stream_complete (data : Record) : Bool :=
  data.finished == some "Stop" || data.delta == some "[EOS]" || data.usage.isSome

example : is_stream_complete { finished := some "Stop" } = true := by decide
example : is_stream_complete { delta := some "[EOS]" } = true := by decide
example : is_stream_complete { usage := some "u" } = true := by decide
example : is_stream_complete { response := some "hi", delta := some "x" } = false := by
  decide

/-! ## The per-agent dispatcher `call_jiutian_api` -/

/-- The part of `AgentModel` the dispatcher's emitted messages depend on. -/
structure Agent where
  agent_uid : String
  name : String
  deriving Repr, DecidableEq

/-- One message handed to `multi_agent_manager.send_agent_message`, keeping
the payload fields the code fills in. -/
inductive Msg
  | status (content agent_name : String)
  | delta (content agent_name accumulated : String)
  | complete (content agent_name : String) (usage references : Option String)
  | error (content : String)
  deriving Repr, DecidableEq

/-- `complete` and `error` messages carry `finished` semantics: they are the
terminal messages of an agent's stream. -/
def isTerminal : Msg → Bool
  | .complete .. => true
  | .error .. => true
  | _ => false

/-- How the upstream body iteration ends when no completion record was met:
the line iterator is exhausted, or it raises `asyncio.TimeoutError`, or it
raises some other exception. -/
inductive StreamEnd
  | exhausted
  | timedOut
  | failed (msg : String)
  deriving Repr, DecidableEq

/-- The body of the `if "response" in data:` block of `call_jiutian_api`:
emits a `delta` message when the record carries a non-empty delta other
than the `"[EOS]"` sentinel, and updates `accumulated_response` to the
record's cumulative `response`. -/
def handleRecord (agent_name : String) (acc : String) (data : Record) :
    List Msg × String :=
  match data.response with
  | some current_response =>
      let d := data.delta.getD ""
      (if d ≠ "" ∧ d ≠ "[EOS]" then [.delta d agent_name current_response] else [],
       current_response)
  | none => ([], acc)

/-- Messages emitted by the `except` handlers when the stream ends without a
completion record: nothing when the iterator is simply exhausted, one
`error` on timeout or on any other exception. -/
def endingMsgs (agent_name : String) : StreamEnd → List Msg
  | .exhausted => []
  | .timedOut => [.error ("Request timeout for agent " ++ agent_name)]
  | .failed m => [.error ("Error calling API for agent " ++ agent_name ++ ": " ++ m)]

/-- The `async for line in response.content:` loop of `call_jiutian_api`.
Each element is the result of `parse_sse_line` on one non-blank line
(`none` when the line was dropped as blank, comment, prefix-less, or
undecodable JSON; such lines are skipped).  On a record satisfying
`is_stream_complete` the loop emits the final `complete` message and
breaks; otherwise the loop runs to `ending`. -/
def processLines (agent_name : String) (acc : String) :
    List (Option Record) → StreamEnd → List Msg
  | [], ending => endingMsgs agent_name ending
  | none :: rest, ending => processLines agent_name acc rest ending
  | some data :: rest, ending =>
      let step := handleRecord agent_name acc data
      if is_stream_complete data then
        step.1 ++ [.complete step.2 agent_name data.usage data.relevant]
      else
        step.1 ++ processLines agent_name step.2 rest ending

/-- The initial `status` message sent before the upstream call is issued. -/
def statusMsg (agent : Agent) : Msg :=
  .status ("Agent " ++ agent.name ++ " is thinking...") agent.name

/-- How one upstream dispatch unfolds, as observed by `call_jiutian_api`'s
control flow: missing/invalid credential, an exception before the `status`
message is sent (e.g. JWT generation), a timeout or exception raised by the
HTTP request itself, or an HTTP response with a status code and a streamed
body. -/
inductive Upstream
  | missingKey
  | invalidFormat
  | preStatusFailure (msg : String)
  | connectTimedOut
  | connectFailed (msg : String)
  | httpResponse (statusCode : Nat) (lines : List (Option Record)) (ending : StreamEnd)
  deriving Repr, DecidableEq

/-- `call_jiutian_api`: the full sequence of messages one dispatch emits via
`send_agent_message`, as a function of the agent and the upstream outcome. -/
def call_jiutian_api (agent : Agent) (outcome : Upstream) : List Msg :=
  match outcome with
  | .missingKey =>
      [.error ("API key not found or invalid for agent " ++ agent.name)]
  | .invalidFormat =>
      [.error ("Invalid API key format for agent " ++ agent.name)]
  | .preStatusFailure m =>
      [.error ("Error calling API for agent " ++ agent.name ++ ": " ++ m)]
  | .connectTimedOut =>
      [statusMsg agent, .error ("Request timeout for agent " ++ agent.name)]
  | .connectFailed m =>
      [statusMsg agent,
       .error ("Error calling API for agent " ++ agent.name ++ ": " ++ m)]
  | .httpResponse statusCode lines ending =>
      if statusCode ≠ 200 then
        [statusMsg agent,
         .error ("API request failed with status " ++ toString statusCode)]
      else
        statusMsg agent :: processLines agent.name "" lines ending

/-- Does some decoded record of the stream satisfy the completion
disjunction? -/
def hasCompleteRecord (lines : List (Option Record)) : Bool :=
  lines.any (fun l => match l with
    | some r => is_stream_complete r
    | none => false)

/-- The one upstream outcome in which the loop of `call_jiutian_api` runs
off the end of the body without meeting a completion record and without an
exception. -/
def streamExhaustsSilently : Upstream → Bool
  | .httpResponse statusCode lines .exhausted =>
      statusCode == 200 && !hasCompleteRecord lines
  | _ => false

/-! ### Terminal-message accounting for one dispatch -/

lemma handleRecord_nonterminal (n acc : String) (data : Record) :
    (handleRecord n acc data).1.all (fun m => !isTerminal m) = true := by
  unfold handleRecord
  cases data.response with
  | none => rfl
  | some r =>
      by_cases hd : data.delta.getD "" ≠ "" ∧ data.delta.getD "" ≠ "[EOS]" <;>
        simp [hd, isTerminal]

lemma processLines_no_complete (n : String) (lines : List (Option Record)) :
    ∀ (acc : String) (ending : StreamEnd), hasCompleteRecord lines = false →
    ∃ pre, processLines n acc lines ending = pre ++ endingMsgs n ending ∧
      pre.all (fun m => !isTerminal m) = true := by
  induction lines with
  | nil => exact fun acc ending _ => ⟨[], rfl, rfl⟩
  | cons head rest ih =>
    intro acc ending h
    cases head with
    | none =>
      have hr : hasCompleteRecord rest = false := by
        simpa [hasCompleteRecord] using h
      simpa [processLines] using ih acc ending hr
    | some data =>
      have h' : is_stream_complete data = false ∧ hasCompleteRecord rest = false := by
        simpa [hasCompleteRecord] using h
      obtain ⟨pre, hpre, hall⟩ := ih (handleRecord n acc data).2 ending h'.2
      refine ⟨(handleRecord n acc data).1 ++ pre, ?_, ?_⟩
      · simp [processLines, h'.1, hpre]
      · simp [List.all_append, hall, handleRecord_nonterminal]

lemma processLines_complete (n : String) (lines : List (Option Record)) :
    ∀ (acc : String) (ending : StreamEnd), hasCompleteRecord lines = true →
    ∃ pre content usage refs,
      processLines n acc lines ending = pre ++ [Msg.complete content n usage refs] ∧
      pre.all (fun m => !isTerminal m) = true := by
  induction lines with
  | nil => intro acc ending h; simp [hasCompleteRecord] at h
  | cons head rest ih =>
    intro acc ending h
    cases head with
    | none =>
      have hr : hasCompleteRecord rest = true := by
        simpa [hasCompleteRecord] using h
      simpa [processLines] using ih acc ending hr
    | some data =>
      by_cases hd : is_stream_complete data = true
      · refine ⟨(handleRecord n acc data).1, (handleRecord n acc data).2,
          data.usage, data.relevant, ?_, handleRecord_nonterminal n acc data⟩
        simp [processLines, hd]
      · have hd' : is_stream_complete data = false := by
          simpa using hd
        have hr : hasCompleteRecord rest = true := by
          simpa [hasCompleteRecord, hd'] using h
        obtain ⟨pre, content, usage, refs, hpre, hall⟩ :=
          ih (handleRecord n acc data).2 ending hr
        refine ⟨(handleRecord n acc data).1 ++ pre, content, usage, refs, ?_, ?_⟩
        · simp [processLines, hd', hpre]
        · simp [List.all_append, hall, handleRecord_nonterminal]

/-- **C1 (amended).** For every dispatch, all `status`/`delta` messages
precede any terminal message and at most one terminal message is emitted;
exactly one terminal (`complete` or `error`) is emitted in every case
except when the upstream answers HTTP 200 and the body's lines end, without
exception, before any record satisfying the completion disjunction — in
that one case the dispatch emits no terminal message at all. -/
theorem c1_call_jiutian_api_terminal (agent : Agent) (o : Upstream) :
    (streamExhaustsSilently o = true →
       (call_jiutian_api agent o).all (fun m => !isTerminal m) = true) ∧
    (streamExhaustsSilently o = false →
       ∃ pre t, call_jiutian_api agent o = pre ++ [t] ∧ isTerminal t = true ∧
         pre.all (fun m => !isTerminal m) = true) := by
  cases o with
  | missingKey =>
      exact ⟨fun h => by simp [streamExhaustsSilently] at h,
        fun _ => ⟨[], _, rfl, rfl, rfl⟩⟩
  | invalidFormat =>
      exact ⟨fun h => by simp [streamExhaustsSilently] at h,
        fun _ => ⟨[], _, rfl, rfl, rfl⟩⟩
  | preStatusFailure m =>
      exact ⟨fun h => by simp [streamExhaustsSilently] at h,
        fun _ => ⟨[], _, rfl, rfl, rfl⟩⟩
  | connectTimedOut =>
      refine ⟨fun h => by simp [streamExhaustsSilently] at h,
        fun _ => ⟨[statusMsg agent], _, rfl, rfl, ?_⟩⟩
      simp [statusMsg, isTerminal]
  | connectFailed m =>
      refine ⟨fun h => by simp [streamExhaustsSilently] at h,
        fun _ => ⟨[statusMsg agent], _, rfl, rfl, ?_⟩⟩
      simp [statusMsg, isTerminal]
  | httpResponse statusCode lines ending =>
      by_cases hst : statusCode = 200
      · subst hst
        by_cases hcomp : hasCompleteRecord lines = true
        · obtain ⟨pre, content, usage, refs, hpre, hall⟩ :=
            processLines_complete agent.name lines "" ending hcomp
          have hterm : ∃ pre t,
              call_jiutian_api agent (.httpResponse 200 lines ending) = pre ++ [t] ∧
              isTerminal t = true ∧ pre.all (fun m => !isTerminal m) = true := by
            refine ⟨statusMsg agent :: pre, Msg.complete content agent.name usage refs,
              ?_, rfl, ?_⟩
            · simp [call_jiutian_api, hpre]
            · rw [List.all_cons, hall]; rfl
          constructor
          · intro h
            cases ending <;> simp [streamExhaustsSilently, hcomp] at h
          · exact fun _ => hterm
        · have hcomp' : hasCompleteRecord lines = false := by simpa using hcomp
          obtain ⟨pre, hpre, hall⟩ :=
            processLines_no_complete agent.name lines "" ending hcomp'
          cases ending with
          | exhausted =>
              constructor
              · intro _
                have hcall : call_jiutian_api agent (.httpResponse 200 lines .exhausted) =
                    statusMsg agent :: pre := by
                  simp [call_jiutian_api, hpre, endingMsgs]
                rw [hcall, List.all_cons, hall]; rfl
              · intro h
                simp [streamExhaustsSilently, hcomp'] at h
          | timedOut =>
              refine ⟨fun h => by simp [streamExhaustsSilently] at h, fun _ => ?_⟩
              refine ⟨statusMsg agent :: pre,
                Msg.error ("Request timeout for agent " ++ agent.name), ?_, rfl, ?_⟩
              · simp [call_jiutian_api, hpre, endingMsgs]
              · rw [List.all_cons, hall]; rfl
          | failed m =>
              refine ⟨fun h => by simp [streamExhaustsSilently] at h, fun _ => ?_⟩
              refine ⟨statusMsg agent :: pre,
                Msg.error ("Error calling API for agent " ++ agent.name ++ ": " ++ m),
                ?_, rfl, ?_⟩
              · simp [call_jiutian_api, hpre, endingMsgs]
              · rw [List.all_cons, hall]; rfl
      · refine ⟨?_, fun _ => ?_⟩
        · intro h
          cases ending <;> simp [streamExhaustsSilently, hst] at h
        · refine ⟨[statusMsg agent],
            Msg.error ("API request failed with status " ++ toString statusCode),
            ?_, rfl, ?_⟩
          · simp [call_jiutian_api, hst]
          · simp [statusMsg, isTerminal]

/-- Witness for `c1_call_jiutian_api_terminal` at a concrete dispatch whose
upstream reports a missing API key. -/
theorem c1_call_jiutian_api_terminal_witness :
    ∃ pre t, call_jiutian_api ⟨"a1", "Agent One"⟩ Upstream.missingKey = pre ++ [t] ∧
      isTerminal t = true ∧ pre.all (fun m => !isTerminal m) = true :=
  (c1_call_jiutian_api_terminal ⟨"a1", "Agent One"⟩ Upstream.missingKey).2 (by decide)

/-- **C1 counterexample.** A dispatch whose upstream answers HTTP 200 with a
single well-formed record (cumulative text, no completion signal) and then
ends the stream emits no terminal message at all, refuting the claim that
exactly one terminal message is emitted for every dispatch. -/
theorem c1_counterexample :
    ¬ ((call_jiutian_api ⟨"a1", "Agent One"⟩
        (Upstream.httpResponse 200
          [some { response := some "hi", delta := some "h" }]
          StreamEnd.exhausted)).countP (fun m => isTerminal m) = 1) := by
  decide

/-- **C2.** A decoded stream record is terminal for `is_stream_complete`
iff its `finished` field equals `"Stop"`, or its `delta` field equals
`"[EOS]"`, or the key `Usage` is present; each disjunct alone suffices and
a record satisfying none of them is not terminal. -/
theorem c2_is_stream_complete_iff (data : Record) :
    is_stream_complete data = true ↔
      (data.finished = some "Stop" ∨ data.delta = some "[EOS]" ∨
        data.usage.isSome = true) := by
  simp [is_stream_complete, Bool.or_eq_true, beq_iff_eq, or_assoc]

/-- A `delta`-kind message. -/
def isDelta : Msg → Bool
  | .delta .. => true
  | _ => false

/-- **C7 (amended).** For every decoded record the per-record step of the
dispatcher emits a `delta` message — carrying the incremental text and the
record's cumulative text — exactly when the record carries a cumulative
`response` field and a delta that is non-empty and differs from the
`"[EOS]"` sentinel; a record whose delta is absent, empty or `"[EOS]"`, or
which carries no `response` field, produces no delta message. -/
theorem c7_delta_messages (agent_name acc : String) (data : Record) :
    (∀ r d, data.response = some r → data.delta = some d → d ≠ "" → d ≠ "[EOS]" →
        (handleRecord agent_name acc data).1 = [Msg.delta d agent_name r]) ∧
    ((data.delta.getD "" = "" ∨ data.delta = some "[EOS]" ∨ data.response = none) →
        (handleRecord agent_name acc data).1 = []) := by
  constructor
  · intro r d hr hd hne heos
    simp [handleRecord, hr, hd, hne, heos]
  · intro h
    rcases h with h | h | h
    · unfold handleRecord
      cases hr : data.response with
      | none => rfl
      | some r => simp [h]
    · unfold handleRecord
      cases hr : data.response with
      | none => rfl
      | some r => simp [h]
    · simp [handleRecord, h]

/-- Witness for `c7_delta_messages` at a concrete record with
`response = "Hi"` and `delta = "h"`, and another with a bare `"[EOS]"`. -/
theorem c7_delta_messages_witness :
    (handleRecord "Agent One" "" { response := some "Hi", delta := some "h" }).1 =
        [Msg.delta "h" "Agent One" "Hi"] ∧
    (handleRecord "Agent One" "x" { response := some "Hi", delta := some "[EOS]" }).1 =
        [] :=
  ⟨(c7_delta_messages "Agent One" "" _).1 "Hi" "h" rfl rfl (by decide) (by decide),
   (c7_delta_messages "Agent One" "x" _).2 (Or.inr (Or.inl rfl))⟩

/-- **C7 counterexample.** A record carrying `delta = "h"` (non-empty and
not the sentinel) but no `response` field produces no `delta` message at
all in the dispatch trace, refuting the claim as stated. -/
theorem c7_counterexample :
    ("h" ≠ "" ∧ "h" ≠ "[EOS]") ∧
    (call_jiutian_api ⟨"a1", "Agent One"⟩
        (Upstream.httpResponse 200 [some { delta := some "h" }]
          StreamEnd.exhausted)).all (fun m => !isDelta m) = true := by
  decide

/-! ## The session registry `MultiAgentWebSocketManager` -/

/-- `ConversationSession`: one active multi-agent conversation. -/
structure ConversationSession where
  conv_id : String
  user_id : String
  session_ids : List String
  agent_uids : List String
  created_at : Int
  last_activity : Int
  deriving Repr, DecidableEq

/-- The manager's mutable state: `active_conversations` keyed by
conversation id and the reverse index `session_to_conv`. -/
structure ManagerState where
  active_conversations : List (String × ConversationSession)
  session_to_conv : List (String × String)
  deriving Repr, DecidableEq

/-- The state `MultiAgentWebSocketManager.__init__` builds. -/
def emptyManager : ManagerState := ⟨[], []⟩

/-- `MultiAgentWebSocketManager.join_conversation` (the in-lock part; the
`sio.enter_room` call is external I/O and carries no registry state). -/
def join_conversation (conv_id user_id session_id : String)
    (agent_uids : List String) (now : Int) (st : ManagerState) :
    ManagerState × Bool :=
  match lookupMap conv_id st.active_conversations with
  | some _ =>
      ({ active_conversations :=
           updMap conv_id (fun c =>
             { c with
               session_ids := insertSet session_id c.session_ids,
               last_activity := now,
               agent_uids := if agent_uids.isEmpty then c.agent_uids else agent_uids })
             st.active_conversations,
         session_to_conv := insertMap session_id conv_id st.session_to_conv }, true)
  | none =>
      ({ active_conversations :=
           (conv_id, ⟨conv_id, user_id, [session_id], agent_uids, now, now⟩) ::
             st.active_conversations,
         session_to_conv := insertMap session_id conv_id st.session_to_conv }, true)

/-- `MultiAgentWebSocketManager.leave_conversation`. -/
def leave_conversation (session_id : String) (now : Int) (st : ManagerState) :
    ManagerState × Bool :=
  match lookupMap session_id st.session_to_conv with
  | none => (st, false)
  | some conv_id =>
      let st1 :=
        match lookupMap conv_id st.active_conversations with
        | some conv =>
            let conv' := { conv with
              session_ids := conv.session_ids.filter (fun s => s ≠ session_id),
              last_activity := now }
            if conv'.session_ids.isEmpty then
              { st with active_conversations := eraseMap conv_id st.active_conversations }
            else
              { st with active_conversations :=
                  updMap conv_id (fun _ => conv') st.active_conversations }
        | none => st
      ({ st1 with session_to_conv := eraseMap session_id st1.session_to_conv }, true)

/-- The per-conversation body of the eviction loop of
`cleanup_inactive_conversations`: drop the conversation's sessions from the
reverse index, then drop the conversation. -/
def evictOne (conv_id : String) (st : ManagerState) : ManagerState :=
  match lookupMap conv_id st.active_conversations with
  | some conv =>
      { active_conversations := eraseMap conv_id st.active_conversations,
        session_to_conv :=
          st.session_to_conv.filter (fun p => p.1 ∉ conv.session_ids) }
  | none => st

/-- `MultiAgentWebSocketManager.cleanup_inactive_conversations`: collect the
conversations whose `last_activity` lies more than `timeout_seconds` in the
past, evict each, and return how many were evicted. -/
def cleanup_inactive_conversations (timeout_seconds : Int) (now : Int)
    (st : ManagerState) : ManagerState × Nat :=
  let inactive_convs :=
    (st.active_conversations.filter
      (fun p => now - p.2.last_activity > timeout_seconds)).map (fun p => p.1)
  (inactive_convs.foldl (fun s c => evictOne c s) st, inactive_convs.length)

/-! ### Association-list lemmas -/

lemma lookupMap_eq_none_iff {β : Type} (k : String) (m : List (String × β)) :
    lookupMap k m = none ↔ k ∉ m.map Prod.fst := by
  induction m with
  | nil => simp [lookupMap]
  | cons p rest ih =>
      obtain ⟨a, b⟩ := p
      by_cases h : a = k
      · subst h; simp [lookupMap]
      · simp [lookupMap, h, ih, Ne.symm h]

lemma mem_of_lookupMap {β : Type} {k : String} {v : β} {m : List (String × β)}
    (h : lookupMap k m = some v) : (k, v) ∈ m := by
  induction m with
  | nil => simp [lookupMap] at h
  | cons p rest ih =>
      by_cases hp : p.1 = k
      · simp [lookupMap, hp] at h
        subst hp
        simp [← h]
      · simp [lookupMap, hp] at h
        exact List.mem_cons_of_mem _ (ih h)

lemma lookupMap_of_mem_nodup {β : Type} {k : String} {v : β}
    {m : List (String × β)} (hn : (m.map Prod.fst).Nodup) (hm : (k, v) ∈ m) :
    lookupMap k m = some v := by
  induction m with
  | nil => simp at hm
  | cons p rest ih =>
      rcases List.mem_cons.mp hm with hm | hm
      · simp [lookupMap, ← hm]
      · have hk : k ∈ rest.map Prod.fst :=
          List.mem_map.mpr ⟨(k, v), hm, rfl⟩
        have hp : p.1 ≠ k := by
          intro hc
          exact (List.nodup_cons.mp hn).1 (hc ▸ hk)
        simp [lookupMap, hp]
        exact ih (List.nodup_cons.mp hn).2 hm

lemma lookupMap_cons {β : Type} (k a : String) (b : β) (rest : List (String × β)) :
    lookupMap k ((a, b) :: rest) = if a = k then some b else lookupMap k rest := rfl

lemma updMap_cons {β : Type} (k : String) (f : β → β) (a : String) (b : β)
    (rest : List (String × β)) :
    updMap k f ((a, b) :: rest) =
      (if a = k then (a, f b) else (a, b)) :: updMap k f rest := by
  by_cases h : a = k <;> simp [updMap, h]

lemma lookupMap_updMap_self {β : Type} (k : String) (f : β → β)
    (m : List (String × β)) :
    lookupMap k (updMap k f m) = (lookupMap k m).map f := by
  induction m with
  | nil => rfl
  | cons p rest ih =>
      obtain ⟨a, b⟩ := p
      by_cases h : a = k
      · subst h; simp [updMap_cons, lookupMap_cons]
      · simp [updMap_cons, lookupMap_cons, h, ih]

lemma lookupMap_updMap_ne {β : Type} {k' k : String} (f : β → β)
    (m : List (String × β)) (h : k' ≠ k) :
    lookupMap k' (updMap k f m) = lookupMap k' m := by
  induction m with
  | nil => rfl
  | cons p rest ih =>
      obtain ⟨a, b⟩ := p
      by_cases hp : a = k
      · subst hp
        simp [updMap_cons, lookupMap_cons, Ne.symm h, ih]
      · by_cases hq : a = k'
        · subst hq; simp [updMap_cons, lookupMap_cons, hp]
        · simp [updMap_cons, lookupMap_cons, hp, hq, ih]

lemma lookupMap_insertMap_self {β : Type} (k : String) (v : β)
    (m : List (String × β)) :
    lookupMap k (insertMap k v m) = some v := by
  unfold insertMap
  by_cases h : (lookupMap k m).isSome
  · rw [if_pos h, lookupMap_updMap_self]
    obtain ⟨w, hw⟩ := Option.isSome_iff_exists.mp h
    simp [hw]
  · simp [if_neg h, lookupMap]

lemma lookupMap_insertMap_ne {β : Type} {k' k : String} (v : β)
    (m : List (String × β)) (h : k' ≠ k) :
    lookupMap k' (insertMap k v m) = lookupMap k' m := by
  unfold insertMap
  by_cases hs : (lookupMap k m).isSome
  · rw [if_pos hs, lookupMap_updMap_ne _ _ h]
  · rw [if_neg hs]
    simp [lookupMap, Ne.symm h]

lemma lookupMap_eraseMap_self {β : Type} (k : String) (m : List (String × β)) :
    lookupMap k (eraseMap k m) = none := by
  induction m with
  | nil => rfl
  | cons p rest ih =>
      obtain ⟨a, b⟩ := p
      by_cases h : a = k
      · subst h
        simp [eraseMap]
        simpa [eraseMap] using ih
      · simp [eraseMap, lookupMap, h]
        simpa [eraseMap] using ih

lemma lookupMap_eraseMap_ne {β : Type} {k' k : String} (m : List (String × β))
    (h : k' ≠ k) :
    lookupMap k' (eraseMap k m) = lookupMap k' m := by
  induction m with
  | nil => rfl
  | cons p rest ih =>
      obtain ⟨a, b⟩ := p
      by_cases hp : a = k
      · subst hp
        simp [eraseMap, lookupMap, Ne.symm h]
        simpa [eraseMap] using ih
      · by_cases hq : a = k'
        · subst hq; simp [eraseMap, lookupMap, hp]
        · simp [eraseMap, lookupMap, hp, hq]
          simpa [eraseMap] using ih

lemma updMap_keys {β : Type} (k : String) (f : β → β) (m : List (String × β)) :
    (updMap k f m).map Prod.fst = m.map Prod.fst := by
  induction m with
  | nil => rfl
  | cons p rest ih =>
      obtain ⟨a, b⟩ := p
      by_cases h : a = k <;> simp [updMap, h] <;>
        simpa [updMap] using ih

lemma insertMap_keys_nodup {β : Type} (k : String) (v : β)
    {m : List (String × β)} (hn : (m.map Prod.fst).Nodup) :
    ((insertMap k v m).map Prod.fst).Nodup := by
  unfold insertMap
  by_cases h : (lookupMap k m).isSome
  · rw [if_pos h, updMap_keys]; exact hn
  · rw [if_neg h]
    have hk : k ∉ m.map Prod.fst := by
      rw [← lookupMap_eq_none_iff]
      exact Option.not_isSome_iff_eq_none.mp h
    rw [List.map_cons]
    exact List.nodup_cons.mpr ⟨hk, hn⟩

lemma eraseMap_keys_nodup {β : Type} (k : String) {m : List (String × β)}
    (hn : (m.map Prod.fst).Nodup) :
    ((eraseMap k m).map Prod.fst).Nodup := by
  have hsub : (eraseMap k m).map Prod.fst |>.Sublist (m.map Prod.fst) :=
    (List.filter_sublist m).map Prod.fst
  exact hn.sublist hsub

lemma filter_keys_nodup {β : Type} (p : String × β → Bool)
    {m : List (String × β)} (hn : (m.map Prod.fst).Nodup) :
    ((m.filter p).map Prod.fst).Nodup :=
  hn.sublist ((List.filter_sublist m).map Prod.fst)

lemma mem_insertSet_iff (y x : String) (s : List String) :
    y ∈ insertSet x s ↔ y = x ∨ y ∈ s := by
  unfold insertSet
  by_cases h : x ∈ s
  · simp [h]
    intro hy; subst hy; exact h
  · simp [h]

/-! ### Registry operation sequences and the bidirectional invariant -/

/-- A client-facing registry operation. -/
inductive RegistryOp
  | join (conv_id user_id session_id : String) (agent_uids : List String) (now : Int)
  | leave (session_id : String) (now : Int)
  deriving Repr, DecidableEq

/-- Apply one operation to the registry state. -/
def applyOp (st : ManagerState) : RegistryOp → ManagerState
  | .join c u s a t => (join_conversation c u s a t st).1
  | .leave s t => (leave_conversation s t st).1

/-- Run a sequence of operations from the empty registry. -/
def runOps (ops : List RegistryOp) : ManagerState :=
  ops.foldl applyOp emptyManager

/-- A join is well-formed in `st` when its connection is not currently
indexed under a different conversation (a client leaves before joining
another room); leaves are always well-formed. -/
def opOk (st : ManagerState) : RegistryOp → Bool
  | .join conv_id _ session_id _ _ =>
      match lookupMap session_id st.session_to_conv with
      | some c => c == conv_id
      | none => true
  | .leave _ _ => true

/-- Every operation of the sequence is well-formed in the state it runs in. -/
def opsOk (st : ManagerState) : List RegistryOp → Bool
  | [] => true
  | op :: rest => opOk st op && opsOk (applyOp st op) rest

/-- The conversation ids of the registered sessions whose `subscribers` set
contains `session_id`. -/
def convsContaining (st : ManagerState) (session_id : String) : List String :=
  (st.active_conversations.filter
    (fun p => session_id ∈ p.2.session_ids)).map Prod.fst

/-- Bidirectional consistency between `active_conversations` and the
reverse index `session_to_conv`. -/
structure GoodState (st : ManagerState) : Prop where
  convKeysNodup : (st.active_conversations.map Prod.fst).Nodup
  idxKeysNodup : (st.session_to_conv.map Prod.fst).Nodup
  idx_to_conv : ∀ s c, lookupMap s st.session_to_conv = some c →
      ∃ sess, lookupMap c st.active_conversations = some sess ∧ s ∈ sess.session_ids
  conv_to_idx : ∀ c sess, lookupMap c st.active_conversations = some sess →
      ∀ s ∈ sess.session_ids, lookupMap s st.session_to_conv = some c

lemma goodState_empty : GoodState emptyManager := by
  refine ⟨List.nodup_nil, List.nodup_nil, ?_, ?_⟩
  · intro s c h; simp [emptyManager, lookupMap] at h
  · intro c sess h; simp [emptyManager, lookupMap] at h

lemma goodState_join (conv_id user_id session_id : String)
    (agent_uids : List String) (now : Int) {st : ManagerState}
    (hg : GoodState st)
    (hok : ∀ c, lookupMap session_id st.session_to_conv = some c → c = conv_id) :
    GoodState (join_conversation conv_id user_id session_id agent_uids now st).1 := by
  unfold join_conversation
  cases hconv : lookupMap conv_id st.active_conversations with
  | some conv =>
      simp only
      set f : ConversationSession → ConversationSession := fun c =>
        { c with
          session_ids := insertSet session_id c.session_ids,
          last_activity := now,
          agent_uids := if agent_uids.isEmpty then c.agent_uids else agent_uids }
        with hf
      refine ⟨?_, ?_, ?_, ?_⟩
      · simpa [updMap_keys] using hg.convKeysNodup
      · exact insertMap_keys_nodup _ _ hg.idxKeysNodup
      · intro s c hsc
        by_cases hs : s = session_id
        · subst hs
          rw [lookupMap_insertMap_self] at hsc
          obtain rfl : conv_id = c := by injection hsc
          refine ⟨f conv, ?_, ?_⟩
          · rw [lookupMap_updMap_self, hconv]; rfl
          · simp [hf, mem_insertSet_iff]
        · rw [lookupMap_insertMap_ne _ _ hs] at hsc
          obtain ⟨sess, hsess, hmem⟩ := hg.idx_to_conv s c hsc
          by_cases hc : c = conv_id
          · subst hc
            refine ⟨f conv, ?_, ?_⟩
            · rw [lookupMap_updMap_self, hconv]; rfl
            · have hcs : sess = conv := by
                rw [hconv] at hsess
                exact (Option.some.inj hsess).symm
              subst hcs
              simp [hf, mem_insertSet_iff, hmem]
          · exact ⟨sess, by rw [lookupMap_updMap_ne _ _ hc]; exact hsess, hmem⟩
      · intro c sess' hlook s hs
        by_cases hc : c = conv_id
        · subst hc
          rw [lookupMap_updMap_self, hconv] at hlook
          obtain rfl : f conv = sess' := by injection hlook
          rcases (mem_insertSet_iff s session_id conv.session_ids).mp hs with rfl | hmem
          · exact lookupMap_insertMap_self _ _ _
          · by_cases hss : s = session_id
            · subst hss; exact lookupMap_insertMap_self _ _ _
            · rw [lookupMap_insertMap_ne _ _ hss]
              exact hg.conv_to_idx _ conv hconv s hmem
        · rw [lookupMap_updMap_ne _ _ hc] at hlook
          have hidx := hg.conv_to_idx c sess' hlook s hs
          by_cases hss : s = session_id
          · subst hss
            exact absurd (hok c hidx) hc
          · rw [lookupMap_insertMap_ne _ _ hss]
            exact hidx
  | none =>
      simp only
      refine ⟨?_, ?_, ?_, ?_⟩
      · rw [List.map_cons]
        refine List.nodup_cons.mpr ⟨?_, hg.convKeysNodup⟩
        rw [← lookupMap_eq_none_iff]
        exact hconv
      · exact insertMap_keys_nodup _ _ hg.idxKeysNodup
      · intro s c hsc
        by_cases hs : s = session_id
        · subst hs
          rw [lookupMap_insertMap_self] at hsc
          obtain rfl : conv_id = c := by injection hsc
          exact ⟨_, by rw [lookupMap_cons, if_pos rfl], by simp⟩
        · rw [lookupMap_insertMap_ne _ _ hs] at hsc
          obtain ⟨sess, hsess, hmem⟩ := hg.idx_to_conv s c hsc
          have hc : c ≠ conv_id := by
            intro hceq; subst hceq
            rw [hconv] at hsess; exact Option.noConfusion hsess
          refine ⟨sess, ?_, hmem⟩
          rw [lookupMap_cons, if_neg (fun hc2 => hc hc2.symm)]
          exact hsess
      · intro c sess' hlook s hs
        rw [lookupMap_cons] at hlook
        by_cases hc : conv_id = c
        · subst hc
          rw [if_pos rfl] at hlook
          obtain rfl : (⟨conv_id, user_id, [session_id], agent_uids, now, now⟩ :
              ConversationSession) = sess' := by injection hlook
          simp only [List.mem_singleton] at hs
          subst hs
          exact lookupMap_insertMap_self _ _ _
        · rw [if_neg hc] at hlook
          have hidx := hg.conv_to_idx c sess' hlook s hs
          by_cases hss : s = session_id
          · subst hss
            exact absurd (hok c hidx) (fun hce => hc hce.symm)
          · rw [lookupMap_insertMap_ne _ _ hss]
            exact hidx

/-- Explicit shape of `leave_conversation` on an indexed connection. -/
lemma leave_conversation_spec (session_id : String) (now : Int)
    (st : ManagerState) {conv_id : String}
    (hidx : lookupMap session_id st.session_to_conv = some conv_id)
    {conv : ConversationSession}
    (hconv : lookupMap conv_id st.active_conversations = some conv) :
    leave_conversation session_id now st =
      (⟨(if (conv.session_ids.filter (fun s => s ≠ session_id)).isEmpty
            then eraseMap conv_id st.active_conversations
            else updMap conv_id (fun _ =>
              { conv with
                session_ids := conv.session_ids.filter (fun s => s ≠ session_id),
                last_activity := now }) st.active_conversations),
         eraseMap session_id st.session_to_conv⟩, true) := by
  unfold leave_conversation
  rw [hidx]
  simp only [hconv]
  by_cases hemp : ((conv.session_ids.filter (fun s => s ≠ session_id)).isEmpty : Bool)
  · simp only [if_pos hemp]
  · simp only [if_neg hemp]

lemma goodState_leave (session_id : String) (now : Int) {st : ManagerState}
    (hg : GoodState st) :
    GoodState (leave_conversation session_id now st).1 := by
  cases hidx : lookupMap session_id st.session_to_conv with
  | none =>
      unfold leave_conversation
      rw [hidx]
      exact hg
  | some conv_id =>
      obtain ⟨conv, hconv, _⟩ := hg.idx_to_conv session_id conv_id hidx
      rw [leave_conversation_spec session_id now st hidx hconv]
      by_cases hemp : ((conv.session_ids.filter (fun s => s ≠ session_id)).isEmpty : Bool)
      · rw [if_pos hemp]
        have hall : ∀ x ∈ conv.session_ids, x = session_id := by
          intro x hx
          have hnil : conv.session_ids.filter (fun s => s ≠ session_id) = [] := by
            simpa [List.isEmpty_iff] using hemp
          by_contra hne
          have : x ∈ conv.session_ids.filter (fun s => s ≠ session_id) := by
            simp [List.mem_filter, hx, hne]
          rw [hnil] at this
          exact List.not_mem_nil x this
        refine ⟨eraseMap_keys_nodup _ hg.convKeysNodup,
          eraseMap_keys_nodup _ hg.idxKeysNodup, ?_, ?_⟩
        · intro s c hsc
          have hs : s ≠ session_id := by
            intro hss; subst hss
            rw [lookupMap_eraseMap_self] at hsc
            exact Option.noConfusion hsc
          rw [lookupMap_eraseMap_ne _ hs] at hsc
          obtain ⟨sess, hsess, hmem⟩ := hg.idx_to_conv s c hsc
          have hc : c ≠ conv_id := by
            intro hcc; subst hcc
            have hsc2 : sess = conv := by
              rw [hconv] at hsess
              exact (Option.some.inj hsess).symm
            subst hsc2
            exact hs (hall s hmem)
          exact ⟨sess, by rw [lookupMap_eraseMap_ne _ hc]; exact hsess, hmem⟩
        · intro c sess' hlook s hs
          have hc : c ≠ conv_id := by
            intro hcc; subst hcc
            rw [lookupMap_eraseMap_self] at hlook
            exact Option.noConfusion hlook
          rw [lookupMap_eraseMap_ne _ hc] at hlook
          have hidx2 := hg.conv_to_idx c sess' hlook s hs
          have hss : s ≠ session_id := by
            intro hseq; subst hseq
            rw [hidx] at hidx2
            exact hc (Option.some.inj hidx2).symm
          rw [lookupMap_eraseMap_ne _ hss]
          exact hidx2
      · rw [if_neg hemp]
        refine ⟨by simpa [updMap_keys] using hg.convKeysNodup,
          eraseMap_keys_nodup _ hg.idxKeysNodup, ?_, ?_⟩
        · intro s c hsc
          have hs : s ≠ session_id := by
            intro hss; subst hss
            rw [lookupMap_eraseMap_self] at hsc
            exact Option.noConfusion hsc
          rw [lookupMap_eraseMap_ne _ hs] at hsc
          obtain ⟨sess, hsess, hmem⟩ := hg.idx_to_conv s c hsc
          by_cases hc : c = conv_id
          · subst hc
            have hsc2 : sess = conv := by
              rw [hconv] at hsess
              exact (Option.some.inj hsess).symm
            subst hsc2
            refine ⟨_, by rw [lookupMap_updMap_self, hconv]; rfl, ?_⟩
            simp [List.mem_filter, hmem, hs]
          · exact ⟨sess, by rw [lookupMap_updMap_ne _ _ hc]; exact hsess, hmem⟩
        · intro c sess' hlook s hs
          by_cases hc : c = conv_id
          · subst hc
            rw [lookupMap_updMap_self, hconv] at hlook
            have hsess' : sess' = { conv with
                session_ids := conv.session_ids.filter (fun s => s ≠ session_id),
                last_activity := now } := (Option.some.inj hlook).symm
            subst hsess'
            simp only [List.mem_filter, decide_eq_true_eq] at hs
            rw [lookupMap_eraseMap_ne _ hs.2]
            exact hg.conv_to_idx _ conv hconv s hs.1
          · rw [lookupMap_updMap_ne _ _ hc] at hlook
            have hidx2 := hg.conv_to_idx c sess' hlook s hs
            have hss : s ≠ session_id := by
              intro hseq; subst hseq
              rw [hidx] at hidx2
              exact hc (Option.some.inj hidx2).symm
            rw [lookupMap_eraseMap_ne _ hss]
            exact hidx2

/-- The invariant holds after every well-formed operation sequence. -/
lemma goodState_foldl (ops : List RegistryOp) :
    ∀ (st : ManagerState), GoodState st → opsOk st ops = true →
      GoodState (ops.foldl applyOp st) := by
  induction ops with
  | nil => exact fun st hg _ => hg
  | cons op rest ih =>
      intro st hg hok
      simp only [opsOk, Bool.and_eq_true] at hok
      refine ih (applyOp st op) ?_ hok.2
      cases op with
      | join conv_id user_id session_id agent_uids now =>
          refine goodState_join conv_id user_id session_id agent_uids now hg ?_
          intro c hc
          have h1 := hok.1
          simp only [opOk, hc] at h1
          exact beq_iff_eq.mp h1
      | leave session_id now => exact goodState_leave session_id now hg

lemma goodState_runOps (ops : List RegistryOp)
    (h : opsOk emptyManager ops = true) : GoodState (runOps ops) :=
  goodState_foldl ops emptyManager goodState_empty h

lemma nodup_all_eq_singleton {l : List String} {c : String} (hn : l.Nodup)
    (hc : c ∈ l) (hall : ∀ x ∈ l, x = c) : l = [c] := by
  cases l with
  | nil => exact absurd hc (List.not_mem_nil c)
  | cons x rest =>
      have hx : x = c := hall x (List.mem_cons_self x rest)
      subst hx
      have hrest : rest = [] := by
        apply List.eq_nil_iff_forall_not_mem.mpr
        intro y hy
        have hyx : y = x := hall y (List.mem_cons_of_mem x hy)
        subst hyx
        exact (List.nodup_cons.mp hn).1 hy
      rw [hrest]

/-- In a consistent registry, a connection is indexed iff exactly one
registered session's subscribers set contains it. -/
lemma goodState_unique_iff {st : ManagerState} (hg : GoodState st)
    (s : String) :
    (lookupMap s st.session_to_conv).isSome = true ↔
      (convsContaining st s).length = 1 := by
  constructor
  · intro h
    obtain ⟨c, hc⟩ := Option.isSome_iff_exists.mp h
    obtain ⟨sess, hsess, hmem⟩ := hg.idx_to_conv s c hc
    have hcin : (c, sess) ∈
        st.active_conversations.filter (fun p => s ∈ p.2.session_ids) :=
      List.mem_filter.mpr ⟨mem_of_lookupMap hsess, by simpa using hmem⟩
    have hallc : ∀ p ∈
        st.active_conversations.filter (fun p => s ∈ p.2.session_ids),
        p.1 = c := by
      intro p hp
      obtain ⟨hpin, hps⟩ := List.mem_filter.mp hp
      have hps' : s ∈ p.2.session_ids := by simpa using hps
      have hlook : lookupMap p.1 st.active_conversations = some p.2 :=
        lookupMap_of_mem_nodup hg.convKeysNodup hpin
      have hsome := hg.conv_to_idx p.1 p.2 hlook s hps'
      rw [hc] at hsome
      exact (Option.some.inj hsome).symm
    have hkeys := filter_keys_nodup
      (fun p : String × ConversationSession => s ∈ p.2.session_ids)
      hg.convKeysNodup
    have hcmem : c ∈ (st.active_conversations.filter
        (fun p => s ∈ p.2.session_ids)).map Prod.fst :=
      List.mem_map.mpr ⟨(c, sess), hcin, rfl⟩
    have hallc' : ∀ x ∈ (st.active_conversations.filter
        (fun p => s ∈ p.2.session_ids)).map Prod.fst, x = c := by
      intro x hx
      obtain ⟨p, hp, rfl⟩ := List.mem_map.mp hx
      exact hallc p hp
    have hsingle := nodup_all_eq_singleton hkeys hcmem hallc'
    unfold convsContaining
    rw [hsingle]
    rfl
  · intro h
    by_contra hno
    have hnone : lookupMap s st.session_to_conv = none :=
      Option.not_isSome_iff_eq_none.mp (by simpa using hno)
    have hempty : convsContaining st s = [] := by
      unfold convsContaining
      have : st.active_conversations.filter
          (fun p => s ∈ p.2.session_ids) = [] := by
        rw [List.filter_eq_nil_iff]
        intro p hp hmem
        have hps : s ∈ p.2.session_ids := by simpa using hmem
        have hlook : lookupMap p.1 st.active_conversations = some p.2 :=
          lookupMap_of_mem_nodup hg.convKeysNodup hp
        have hsome := hg.conv_to_idx p.1 p.2 hlook s hps
        rw [hnone] at hsome
        exact Option.noConfusion hsome
      rw [this]
      rfl
    rw [hempty] at h
    exact absurd h (by decide)

/-- In a consistent registry, leaving removes the reverse-index entry and
every subscribers-set membership of the connection together. -/
lemma leave_clears {st : ManagerState} (hg : GoodState st) (s : String)
    (now : Int) :
    lookupMap s (leave_conversation s now st).1.session_to_conv = none ∧
    convsContaining (leave_conversation s now st).1 s = [] := by
  cases hidx : lookupMap s st.session_to_conv with
  | none =>
      have hstep : leave_conversation s now st = (st, false) := by
        unfold leave_conversation
        rw [hidx]
      rw [hstep]
      refine ⟨hidx, ?_⟩
      unfold convsContaining
      have : st.active_conversations.filter
          (fun p => s ∈ p.2.session_ids) = [] := by
        rw [List.filter_eq_nil_iff]
        intro p hp hmem
        have hps : s ∈ p.2.session_ids := by simpa using hmem
        have hlook : lookupMap p.1 st.active_conversations = some p.2 :=
          lookupMap_of_mem_nodup hg.convKeysNodup hp
        have hsome := hg.conv_to_idx p.1 p.2 hlook s hps
        rw [hidx] at hsome
        exact Option.noConfusion hsome
      rw [this]
      rfl
  | some conv_id =>
      obtain ⟨conv, hconv, hmem⟩ := hg.idx_to_conv s conv_id hidx
      rw [leave_conversation_spec s now st hidx hconv]
      refine ⟨lookupMap_eraseMap_self _ _, ?_⟩
      unfold convsContaining
      by_cases hemp : ((conv.session_ids.filter (fun x => x ≠ s)).isEmpty : Bool)
      · rw [if_pos hemp]
        have : (eraseMap conv_id st.active_conversations).filter
            (fun p => s ∈ p.2.session_ids) = [] := by
          rw [List.filter_eq_nil_iff]
          intro p hp hmem2
          have hps : s ∈ p.2.session_ids := by simpa using hmem2
          obtain ⟨hpin, hpk⟩ := List.mem_filter.mp hp
          have hpk' : p.1 ≠ conv_id := by simpa using hpk
          have hlook : lookupMap p.1 st.active_conversations = some p.2 :=
            lookupMap_of_mem_nodup hg.convKeysNodup hpin
          have hsome := hg.conv_to_idx p.1 p.2 hlook s hps
          rw [hidx] at hsome
          exact hpk' (Option.some.inj hsome).symm
        rw [this]
        rfl
      · rw [if_neg hemp]
        have : (updMap conv_id (fun _ =>
            { conv with
              session_ids := conv.session_ids.filter (fun x => x ≠ s),
              last_activity := now }) st.active_conversations).filter
            (fun p => s ∈ p.2.session_ids) = [] := by
          rw [List.filter_eq_nil_iff]
          intro p hp hmem2
          have hps : s ∈ p.2.session_ids := by simpa using hmem2
          obtain ⟨q, hq, hpq⟩ := List.mem_map.mp hp
          by_cases hqk : q.1 = conv_id
          · rw [if_pos hqk] at hpq
            subst hpq
            simp only [List.mem_filter, decide_eq_true_eq] at hps
            exact hps.2 rfl
          · rw [if_neg hqk] at hpq
            subst hpq
            have hlook : lookupMap q.1 st.active_conversations = some q.2 :=
              lookupMap_of_mem_nodup hg.convKeysNodup hq
            have hsome := hg.conv_to_idx q.1 q.2 hlook s hps
            rw [hidx] at hsome
            exact hqk (Option.some.inj hsome).symm
        rw [this]
        rfl

/-- **C3 (amended).** After every finite sequence of `join_conversation`
and `leave_conversation` operations from the empty registry in which no
join re-uses a connection identifier while it is indexed under a different
conversation, a connection identifier appears in the reverse index iff it
is a member of the subscribers set of exactly one registered
`ConversationSession`; and applying `leave_conversation` to any connection
in such a state removes its reverse-index entry and every subscribers-set
membership together. -/
theorem c3_registry_index_invariant (ops : List RegistryOp)
    (h : opsOk emptyManager ops = true) (s : String) (now : Int) :
    ((lookupMap s (runOps ops).session_to_conv).isSome = true ↔
        (convsContaining (runOps ops) s).length = 1) ∧
    (lookupMap s (leave_conversation s now (runOps ops)).1.session_to_conv = none ∧
      convsContaining (leave_conversation s now (runOps ops)).1 s = []) :=
  ⟨goodState_unique_iff (goodState_runOps ops h) s,
   leave_clears (goodState_runOps ops h) s now⟩

/-- Witness for `c3_registry_index_invariant` on the concrete sequence
`join("A","u","s1"); join("A","u2","s2"); leave("s1")`. -/
theorem c3_registry_index_invariant_witness :
    opsOk emptyManager
      [RegistryOp.join "A" "u" "s1" ["a1"] 0,
       RegistryOp.join "A" "u2" "s2" [] 1,
       RegistryOp.leave "s1" 2] = true ∧
    (((lookupMap "s2" (runOps
        [RegistryOp.join "A" "u" "s1" ["a1"] 0,
         RegistryOp.join "A" "u2" "s2" [] 1,
         RegistryOp.leave "s1" 2]).session_to_conv).isSome = true ↔
      (convsContaining (runOps
        [RegistryOp.join "A" "u" "s1" ["a1"] 0,
         RegistryOp.join "A" "u2" "s2" [] 1,
         RegistryOp.leave "s1" 2]) "s2").length = 1) ∧
     (lookupMap "s2" (leave_conversation "s2" 3 (runOps
        [RegistryOp.join "A" "u" "s1" ["a1"] 0,
         RegistryOp.join "A" "u2" "s2" [] 1,
         RegistryOp.leave "s1" 2])).1.session_to_conv = none ∧
      convsContaining (leave_conversation "s2" 3 (runOps
        [RegistryOp.join "A" "u" "s1" ["a1"] 0,
         RegistryOp.join "A" "u2" "s2" [] 1,
         RegistryOp.leave "s1" 2])).1 "s2" = [])) :=
  ⟨by decide,
   c3_registry_index_invariant
     [RegistryOp.join "A" "u" "s1" ["a1"] 0,
      RegistryOp.join "A" "u2" "s2" [] 1,
      RegistryOp.leave "s1" 2] (by decide) "s2" 3⟩

/-- **C3 counterexample.** After the unrestricted sequence
`join("A","u","s"); join("B","u","s")` the connection `"s"` is present in
the reverse index yet is a member of the subscriber sets of two registered
sessions at once, so the exactly-one part of the claim fails on the code. -/
theorem c3_counterexample :
    (lookupMap "s" (runOps
        [RegistryOp.join "A" "u" "s" [] 0,
         RegistryOp.join "B" "u" "s" [] 1]).session_to_conv).isSome = true ∧
    ¬ ((convsContaining (runOps
        [RegistryOp.join "A" "u" "s" [] 0,
         RegistryOp.join "B" "u" "s" [] 1]) "s").length = 1) := by
  decide

/-- **C5.** Joining an already-registered conversation with a non-empty
`agent_uids` list replaces the stored list with exactly that list, and
joining with an empty list leaves the stored list unchanged. -/
theorem c5_join_overwrites_agent_uids (conv_id user_id session_id : String)
    (agent_uids : List String) (now : Int) (st : ManagerState)
    {sess : ConversationSession}
    (h : lookupMap conv_id st.active_conversations = some sess) :
    ∃ sess',
      lookupMap conv_id
          (join_conversation conv_id user_id session_id agent_uids now
            st).1.active_conversations = some sess' ∧
      sess'.agent_uids =
        (if agent_uids = [] then sess.agent_uids else agent_uids) := by
  unfold join_conversation
  rw [h]
  simp only
  refine ⟨_, by rw [lookupMap_updMap_self, h]; rfl, ?_⟩
  cases agent_uids <;> simp

/-- Witness for `c5_join_overwrites_agent_uids`: one overwriting join and
one empty join on a singleton registry. -/
theorem c5_join_overwrites_agent_uids_witness :
    (lookupMap "A"
        (⟨[("A", ⟨"A", "u", ["s"], ["a1"], 0, 0⟩)], [("s", "A")]⟩ :
          ManagerState).active_conversations =
      some ⟨"A", "u", ["s"], ["a1"], 0, 0⟩) ∧
    (∃ sess',
      lookupMap "A"
          (join_conversation "A" "u2" "s2" ["b1", "b2"] 7
            ⟨[("A", ⟨"A", "u", ["s"], ["a1"], 0, 0⟩)],
             [("s", "A")]⟩).1.active_conversations = some sess' ∧
      sess'.agent_uids =
        (if (["b1", "b2"] : List String) = [] then
          (⟨"A", "u", ["s"], ["a1"], 0, 0⟩ : ConversationSession).agent_uids
         else ["b1", "b2"])) ∧
    (∃ sess',
      lookupMap "A"
          (join_conversation "A" "u2" "s2" [] 7
            ⟨[("A", ⟨"A", "u", ["s"], ["a1"], 0, 0⟩)],
             [("s", "A")]⟩).1.active_conversations = some sess' ∧
      sess'.agent_uids =
        (if ([] : List String) = [] then
          (⟨"A", "u", ["s"], ["a1"], 0, 0⟩ : ConversationSession).agent_uids
         else [])) :=
  ⟨by decide,
   c5_join_overwrites_agent_uids "A" "u2" "s2" ["b1", "b2"] 7 _ (by decide),
   c5_join_overwrites_agent_uids "A" "u2" "s2" [] 7 _ (by decide)⟩

/-- **C6.** Calling `leave_conversation` with a connection identifier that
is not in the reverse index returns `false` and leaves the whole registry
state unchanged. -/
theorem c6_leave_unknown_noop (session_id : String) (now : Int)
    (st : ManagerState)
    (h : lookupMap session_id st.session_to_conv = none) :
    leave_conversation session_id now st = (st, false) := by
  unfold leave_conversation
  rw [h]

/-- Witness for `c6_leave_unknown_noop` on a concrete one-conversation
registry and the unknown connection `"ghost"`. -/
theorem c6_leave_unknown_noop_witness :
    lookupMap "ghost"
        (⟨[("A", ⟨"A", "u", ["s"], ["a1"], 0, 0⟩)], [("s", "A")]⟩ :
          ManagerState).session_to_conv = none ∧
    leave_conversation "ghost" 5
        ⟨[("A", ⟨"A", "u", ["s"], ["a1"], 0, 0⟩)], [("s", "A")]⟩ =
      (⟨[("A", ⟨"A", "u", ["s"], ["a1"], 0, 0⟩)], [("s", "A")]⟩, false) :=
  ⟨by decide, c6_leave_unknown_noop "ghost" 5 _ (by decide)⟩

/-! ### The reaper `cleanup_inactive_conversations` -/

lemma foldl_evictOne_spec (ks : List String) :
    ∀ (m : List (String × ConversationSession)) (idx : List (String × String)),
      ks.Nodup → (m.map Prod.fst).Nodup →
      (∀ k ∈ ks, (lookupMap k m).isSome = true) →
      ks.foldl (fun s c => evictOne c s) ⟨m, idx⟩ =
        ⟨m.filter (fun p => decide (p.1 ∉ ks)),
         idx.filter (fun q =>
           decide (∀ p ∈ m, p.1 ∈ ks → q.1 ∉ p.2.session_ids))⟩ := by
  induction ks with
  | nil =>
      intro m idx _ _ _
      simp [List.foldl]
  | cons k ks' ih =>
      intro m idx hks hm hpres
      obtain ⟨hknotin, hks'⟩ := List.nodup_cons.mp hks
      obtain ⟨conv, hconv⟩ :=
        Option.isSome_iff_exists.mp (hpres k (List.mem_cons_self k ks'))
      have hstep : evictOne k ⟨m, idx⟩ =
          ⟨eraseMap k m,
           idx.filter (fun q => decide (q.1 ∉ conv.session_ids))⟩ := by
        unfold evictOne
        rw [hconv]
      rw [List.foldl_cons, hstep]
      have hm' : ((eraseMap k m).map Prod.fst).Nodup :=
        eraseMap_keys_nodup k hm
      have hpres' : ∀ k' ∈ ks', (lookupMap k' (eraseMap k m)).isSome = true := by
        intro k' hk'
        have hne : k' ≠ k := fun hc => hknotin (hc ▸ hk')
        rw [lookupMap_eraseMap_ne _ hne]
        exact hpres k' (List.mem_cons_of_mem k hk')
      rw [ih (eraseMap k m) _ hks' hm' hpres']
      refine congrArg₂ ManagerState.mk ?_ ?_
      · unfold eraseMap
        rw [List.filter_filter]
        apply List.filter_congr
        intro p _
        by_cases h1 : p.1 = k <;> by_cases h2 : p.1 ∈ ks' <;>
          simp [h1, h2]
      · rw [List.filter_filter]
        apply List.filter_congr
        intro q _
        have hiff :
            ((∀ p ∈ eraseMap k m, p.1 ∈ ks' → q.1 ∉ p.2.session_ids) ∧
              q.1 ∉ conv.session_ids) ↔
            (∀ p ∈ m, p.1 ∈ k :: ks' → q.1 ∉ p.2.session_ids) := by
          constructor
          · rintro ⟨h2, h1⟩ p hp hpk
            rcases List.mem_cons.mp hpk with hk | hksmem
            · have hlp : lookupMap p.1 m = some p.2 :=
                lookupMap_of_mem_nodup hm hp
              rw [hk, hconv] at hlp
              rw [← Option.some.inj hlp]
              exact h1
            · have hne : p.1 ≠ k := fun hc => hknotin (hc ▸ hksmem)
              refine h2 p ?_ hksmem
              exact List.mem_filter.mpr ⟨hp, by simpa using hne⟩
          · intro h
            constructor
            · intro p hp hpk
              exact h p (List.mem_filter.mp hp).1 (List.mem_cons_of_mem k hpk)
            · exact h (k, conv) (mem_of_lookupMap hconv)
                (List.mem_cons_self k ks')
        rw [← Bool.decide_and]
        exact decide_eq_decide.mpr hiff

lemma mem_inactiveKeys_iff {pred : String × ConversationSession → Bool}
    {m : List (String × ConversationSession)}
    (hm : (m.map Prod.fst).Nodup) {p : String × ConversationSession}
    (hp : p ∈ m) :
    p.1 ∈ (m.filter pred).map Prod.fst ↔ pred p = true := by
  constructor
  · intro h
    obtain ⟨p', hp', hk⟩ := List.mem_map.mp h
    obtain ⟨hp'm, hp'pred⟩ := List.mem_filter.mp hp'
    have h1 : lookupMap p.1 m = some p.2 := lookupMap_of_mem_nodup hm hp
    have h2 : lookupMap p'.1 m = some p'.2 := lookupMap_of_mem_nodup hm hp'm
    rw [hk] at h2
    rw [h1] at h2
    have h22 : p'.2 = p.2 := (Option.some.inj h2).symm
    have hpp : p' = p := Prod.ext hk h22
    rw [← hpp]
    exact hp'pred
  · intro h
    exact List.mem_map.mpr ⟨p, List.mem_filter.mpr ⟨hp, h⟩, rfl⟩

/-- **C9.** One run of the reaper evicts exactly the conversations whose
`last_activity` lies more than `timeout_seconds` before `now`: the
conversations map keeps precisely the recent conversations (unchanged), the
reverse index keeps precisely the entries whose connection lies in no
evicted conversation's subscribers set, and the returned count is the
number of conversations evicted. -/
theorem c9_cleanup_evicts_stale (timeout_seconds now : Int)
    (st : ManagerState)
    (hn : (st.active_conversations.map Prod.fst).Nodup) :
    cleanup_inactive_conversations timeout_seconds now st =
      (⟨st.active_conversations.filter
          (fun p => decide (¬ (now - p.2.last_activity > timeout_seconds))),
        st.session_to_conv.filter
          (fun q => decide (∀ p ∈ st.active_conversations,
            now - p.2.last_activity > timeout_seconds →
              q.1 ∉ p.2.session_ids))⟩,
       (st.active_conversations.filter
          (fun p => now - p.2.last_activity > timeout_seconds)).length) := by
  obtain ⟨m, idx⟩ := st
  have hn' : (m.map Prod.fst).Nodup := hn
  set pred : String × ConversationSession → Bool :=
    fun p => decide (now - p.2.last_activity > timeout_seconds) with hpred
  set ks : List String := (m.filter pred).map Prod.fst with hks
  have hks_nodup : ks.Nodup := filter_keys_nodup pred hn'
  have hpres : ∀ k ∈ ks, (lookupMap k m).isSome = true := by
    intro k hk
    rw [hks] at hk
    obtain ⟨p, hp, hkp⟩ := List.mem_map.mp hk
    have hlp : lookupMap p.1 m = some p.2 :=
      lookupMap_of_mem_nodup hn' (List.mem_filter.mp hp).1
    rw [← hkp, hlp]
    rfl
  have hmemks : ∀ p ∈ m, (p.1 ∈ ks ↔ pred p = true) := by
    intro p hp
    rw [hks]
    exact mem_inactiveKeys_iff hn' hp
  have hfold := foldl_evictOne_spec ks m idx hks_nodup hn' hpres
  have hstep1 : cleanup_inactive_conversations timeout_seconds now ⟨m, idx⟩ =
      (⟨m.filter (fun p => decide (p.1 ∉ ks)),
        idx.filter (fun q =>
          decide (∀ p ∈ m, p.1 ∈ ks → q.1 ∉ p.2.session_ids))⟩,
       ks.length) := by
    show (ks.foldl (fun s c => evictOne c s) ⟨m, idx⟩, ks.length) = _
    rw [hfold]
  rw [hstep1]
  refine congrArg₂ Prod.mk (congrArg₂ ManagerState.mk ?_ ?_) ?_
  · apply List.filter_congr
    intro p hp
    by_cases hc : pred p = true
    · have hin : p.1 ∈ ks := (hmemks p hp).mpr hc
      have hprop : now - p.2.last_activity > timeout_seconds := by
        simpa [hpred] using hc
      simp [hin, hprop]
    · have hnin : p.1 ∉ ks := fun hcc => hc ((hmemks p hp).mp hcc)
      have hprop : ¬ (now - p.2.last_activity > timeout_seconds) := by
        simpa [hpred] using hc
      simp [hnin, hprop]
  · apply List.filter_congr
    intro q _
    apply decide_eq_decide.mpr
    constructor
    · intro h p hp hstale
      refine h p hp ((hmemks p hp).mpr ?_)
      simpa [hpred] using hstale
    · intro h p hp hkin
      have hc := (hmemks p hp).mp hkin
      exact h p hp (by simpa [hpred] using hc)
  · rw [hks, List.length_map]

/-- Witness for `c9_cleanup_evicts_stale` on a registry with one stale and
one fresh conversation, threshold 3600s at time 4000. -/
theorem c9_cleanup_evicts_stale_witness :
    ((([("A", ⟨"A", "u", ["s1"], ["a1"], 0, 0⟩),
        ("B", ⟨"B", "u", ["s2"], ["a2"], 900, 1000⟩)] :
          List (String × ConversationSession)).map Prod.fst).Nodup) ∧
    cleanup_inactive_conversations 3600 4000
        ⟨[("A", ⟨"A", "u", ["s1"], ["a1"], 0, 0⟩),
          ("B", ⟨"B", "u", ["s2"], ["a2"], 900, 1000⟩)],
         [("s1", "A"), ("s2", "B")]⟩ =
      (⟨([("A", ⟨"A", "u", ["s1"], ["a1"], 0, 0⟩),
          ("B", ⟨"B", "u", ["s2"], ["a2"], 900, 1000⟩)] :
            List (String × ConversationSession)).filter
            (fun p => decide (¬ ((4000 : Int) - p.2.last_activity > 3600))),
         ([("s1", "A"), ("s2", "B")] : List (String × String)).filter
            (fun q => decide (∀ p ∈
              ([("A", ⟨"A", "u", ["s1"], ["a1"], 0, 0⟩),
                ("B", ⟨"B", "u", ["s2"], ["a2"], 900, 1000⟩)] :
                  List (String × ConversationSession)),
              (4000 : Int) - p.2.last_activity > 3600 →
                q.1 ∉ p.2.session_ids))⟩,
       (([("A", ⟨"A", "u", ["s1"], ["a1"], 0, 0⟩),
          ("B", ⟨"B", "u", ["s2"], ["a2"], 900, 1000⟩)] :
            List (String × ConversationSession)).filter
            (fun p => (4000 : Int) - p.2.last_activity > 3600)).length) :=
  ⟨by decide,
   c9_cleanup_evicts_stale 3600 4000
     ⟨[("A", ⟨"A", "u", ["s1"], ["a1"], 0, 0⟩),
       ("B", ⟨"B", "u", ["s2"], ["a2"], 900, 1000⟩)],
      [("s1", "A"), ("s2", "B")]⟩ (by decide)⟩

/-! ## The fan-out coordinator `process_multi_chat_request` -/

/-- One event observed on the conversation during a fan-out: a system
message (`send_system_message` with its `message_type`) or a message of one
agent's dispatch (`send_agent_message`). -/
inductive CoordEvent
  | sysMsg (message_type : String)
  | agentMsg (agent_id : String) (m : Msg)
  deriving Repr, DecidableEq

/-- `process_multi_chat_request`: `agents` is the resolved enabled-agent
list returned by `Agents.get_enabled_agents_by_uids` (an external
collaborator).  When it is empty one `system/error` is published; otherwise
one `system/start`, then one `call_jiutian_api` task per resolved agent
(their emissions listed in canonical task order — the counted lifecycle
properties are invariant under the concurrent interleaving), and one
`system/complete` once `asyncio.gather(..., return_exceptions=True)` has
waited for all of them. -/
def process_multi_chat_request (agents : List Agent)
    (outcome : Agent → Upstream) : List CoordEvent :=
  if agents.isEmpty then [.sysMsg "error"]
  else
    .sysMsg "start" ::
      (agents.map (fun a =>
        (call_jiutian_api a (outcome a)).map (CoordEvent.agentMsg a.agent_uid))).flatten
      ++ [.sysMsg "complete"]

/-- An agent-dispatch event. -/
def isAgentMsg : CoordEvent → Bool
  | .agentMsg .. => true
  | _ => false

/-- Project an event to its agent part. -/
def agentPart : CoordEvent → Option (String × Msg)
  | .agentMsg u m => some (u, m)
  | .sysMsg _ => none

lemma filterMap_agentPart_flatten (agents : List Agent)
    (outcome : Agent → Upstream) :
    ((agents.map (fun a =>
        (call_jiutian_api a (outcome a)).map
          (CoordEvent.agentMsg a.agent_uid))).flatten).filterMap agentPart =
      (agents.map (fun a =>
        (call_jiutian_api a (outcome a)).map
          (fun m => (a.agent_uid, m)))).flatten := by
  induction agents with
  | nil => rfl
  | cons a rest ih =>
      simp only [List.map_cons, List.flatten_cons, List.filterMap_append, ih]
      congr 1
      rw [List.filterMap_map]
      have : agentPart ∘ CoordEvent.agentMsg a.agent_uid =
          some ∘ (fun m => (a.agent_uid, m)) := by
        funext m
        rfl
      rw [this, List.filterMap_eq_map]

/-- **C4.** An empty resolved agent set yields exactly one `system/error`
and no `start`/`complete`; a non-empty set yields one `system/start` first,
one `system/complete` last, only agent-dispatch events in between, and the
agent events are exactly one full `call_jiutian_api` emission per resolved
agent — also when some dispatches end in errors. -/
theorem c4_coordinator_lifecycle (agents : List Agent)
    (outcome : Agent → Upstream) :
    (agents = [] →
      process_multi_chat_request agents outcome = [CoordEvent.sysMsg "error"]) ∧
    (agents ≠ [] →
      (process_multi_chat_request agents outcome).head? =
          some (CoordEvent.sysMsg "start") ∧
      (process_multi_chat_request agents outcome).getLast? =
          some (CoordEvent.sysMsg "complete") ∧
      (((process_multi_chat_request agents outcome).drop 1).dropLast).all
          isAgentMsg = true ∧
      (process_multi_chat_request agents outcome).filterMap agentPart =
        (agents.map (fun a =>
          (call_jiutian_api a (outcome a)).map
            (fun m => (a.agent_uid, m)))).flatten) := by
  constructor
  · intro h
    subst h
    rfl
  · intro h
    have hne : agents.isEmpty = false := by
      cases agents with
      | nil => exact absurd rfl h
      | cons a rest => rfl
    set mid : List CoordEvent :=
      (agents.map (fun a =>
        (call_jiutian_api a (outcome a)).map
          (CoordEvent.agentMsg a.agent_uid))).flatten with hmid
    have htr : process_multi_chat_request agents outcome =
        CoordEvent.sysMsg "start" :: mid ++ [CoordEvent.sysMsg "complete"] := by
      unfold process_multi_chat_request
      rw [hne, hmid]
      rfl
    refine ⟨?_, ?_, ?_, ?_⟩
    · rw [htr]; rfl
    · rw [htr]
      show ((CoordEvent.sysMsg "start" :: mid) ++
        [CoordEvent.sysMsg "complete"]).getLast? = _
      exact List.getLast?_concat _
    · rw [htr]
      show ((mid ++ [CoordEvent.sysMsg "complete"]).dropLast).all isAgentMsg = true
      rw [List.dropLast_concat, List.all_eq_true]
      intro x hx
      rw [hmid] at hx
      obtain ⟨l, hl, hxl⟩ := List.mem_flatten.mp hx
      obtain ⟨a, _, rfl⟩ := List.mem_map.mp hl
      obtain ⟨m, _, rfl⟩ := List.mem_map.mp hxl
      rfl
    · rw [htr]
      have hsplit : List.filterMap agentPart
          (CoordEvent.sysMsg "start" :: mid ++ [CoordEvent.sysMsg "complete"]) =
          List.filterMap agentPart mid := by
        simp [agentPart]
      rw [hsplit, hmid]
      exact filterMap_agentPart_flatten agents outcome

/-- Witness for `c4_coordinator_lifecycle` with one successful and one
failing dispatch. -/
theorem c4_coordinator_lifecycle_witness :
    ([(⟨"a1", "One"⟩ : Agent), ⟨"a2", "Two"⟩] ≠ []) ∧
    (process_multi_chat_request [⟨"a1", "One"⟩, ⟨"a2", "Two"⟩]
        (fun a => if a.agent_uid = "a1" then
          Upstream.httpResponse 200
            [some { response := some "Hi", delta := some "Hi",
                    finished := some "Stop" }] StreamEnd.exhausted
        else Upstream.missingKey)).head? =
      some (CoordEvent.sysMsg "start") ∧
    (process_multi_chat_request [⟨"a1", "One"⟩, ⟨"a2", "Two"⟩]
        (fun a => if a.agent_uid = "a1" then
          Upstream.httpResponse 200
            [some { response := some "Hi", delta := some "Hi",
                    finished := some "Stop" }] StreamEnd.exhausted
        else Upstream.missingKey)).getLast? =
      some (CoordEvent.sysMsg "complete") :=
  have hthm := c4_coordinator_lifecycle [⟨"a1", "One"⟩, ⟨"a2", "Two"⟩]
    (fun a => if a.agent_uid = "a1" then
      Upstream.httpResponse 200
        [some { response := some "Hi", delta := some "Hi",
                finished := some "Stop" }] StreamEnd.exhausted
    else Upstream.missingKey)
  ⟨by decide, (hthm.2 (by decide)).1, (hthm.2 (by decide)).2.1⟩

/-! ## The submission endpoint `multi_chat` -/

/-- `MultiChatRequest` as parsed: `conv_id`, `user_id`, `message`,
`agent_uids` required, `history` optional with default `[]`. -/
structure MultiChatRequest where
  conv_id : String
  user_id : String
  message : String
  agent_uids : List String
  history : List (List String)
  deriving Repr, DecidableEq

/-- A raw submission body: which fields are present. -/
structure RawRequest where
  conv_id : Option String
  user_id : Option String
  message : Option String
  agent_uids : Option (List String)
  history : Option (List (List String))
  deriving Repr, DecidableEq

/-- Pydantic validation of the `MultiChatRequest` model: the four fields
declared without a default must be present or the body is rejected at
parsing; `history` falls back to `[]`. -/
def parseMultiChatRequest (r : RawRequest) : Option MultiChatRequest :=
  match r.conv_id, r.user_id, r.message, r.agent_uids with
  | some c, some u, some msg, some a => some ⟨c, u, msg, a, r.history.getD []⟩
  | _, _, _, _ => none

/-- `MultiChatResponse`. -/
structure MultiChatResponse where
  conv_id : String
  status : String
  message : String
  deriving Repr, DecidableEq

/-- The deferred `process_multi_chat_request` invocation queued with
`background_tasks.add_task`, run only after the response is returned. -/
structure BackgroundTask where
  conv_id : String
  user_id : String
  message : String
  agent_uids : List String
  history : List (List String)
  deriving Repr, DecidableEq

/-- Endpoint outcome: a synchronous `HTTPException` or the accepted
response paired with the scheduled background task. -/
inductive MultiChatResult
  | rejected (statusCode : Nat) (detail : String)
  | accepted (resp : MultiChatResponse) (task : BackgroundTask)
  deriving Repr, DecidableEq

/-- Python `str.strip()` (no argument): drop leading and trailing
whitespace. -/
def pyStrip (s : String) : String :=
  String.mk (((s.toList.dropWhile Char.isWhitespace).reverse.dropWhile
    Char.isWhitespace).reverse)

/-- The roles the endpoint accepts. -/
def allowedRoles : List String := ["student", "teacher", "admin", "superadmin"]

/-- The `multi_chat` endpoint handler: empty agent list and blank message
are rejected with 400, a disallowed role with 403; otherwise
`conv_id = request.conv_id or str(uuid.uuid4())` (an empty string is
falsy), the background task is queued, and the accepted response is
returned.  `freshUuid` stands for the `uuid.uuid4()` value. -/
def multi_chat (req : MultiChatRequest) (userRole : String)
    (freshUuid : String) : MultiChatResult :=
  if req.agent_uids.isEmpty then
    .rejected 400 "At least one agent UID is required"
  else if (pyStrip req.message).isEmpty then
    .rejected 400 "Message cannot be empty"
  else if userRole ∉ allowedRoles then
    .rejected 403 "ACCESS_PROHIBITED"
  else
    .accepted
      ⟨if req.conv_id.isEmpty then freshUuid else req.conv_id, "accepted",
       "Request accepted. Processing " ++ toString req.agent_uids.length ++
         " agents."⟩
      ⟨if req.conv_id.isEmpty then freshUuid else req.conv_id, req.user_id,
       req.message, req.agent_uids, req.history⟩

/-- **C8.** For an authorized user, the endpoint rejects synchronously with
a 400 validation error iff the agent list is empty or the message is blank
after stripping; every other such submission is accepted immediately with
status `"accepted"` and a conversation id, per-agent processing existing
only as the deferred background task of the accepted result. -/
theorem c8_validation_and_acceptance (req : MultiChatRequest)
    (userRole freshUuid : String) (hrole : userRole ∈ allowedRoles) :
    ((∃ d, multi_chat req userRole freshUuid = .rejected 400 d) ↔
      (req.agent_uids = [] ∨ pyStrip req.message = "")) ∧
    (¬ (req.agent_uids = [] ∨ pyStrip req.message = "") →
      ∃ cid task,
        multi_chat req userRole freshUuid =
          .accepted ⟨cid, "accepted",
            "Request accepted. Processing " ++
              toString req.agent_uids.length ++ " agents."⟩ task ∧
        task.conv_id = cid) := by
  unfold multi_chat
  by_cases h1 : req.agent_uids.isEmpty
  · have h1' : req.agent_uids = [] := List.isEmpty_iff.mp h1
    rw [if_pos h1]
    exact ⟨⟨fun _ => Or.inl h1', fun _ => ⟨_, rfl⟩⟩,
      fun hno => absurd (Or.inl h1') hno⟩
  · rw [if_neg h1]
    have h1' : ¬ req.agent_uids = [] := fun hc => h1 (List.isEmpty_iff.mpr hc)
    by_cases h2 : (pyStrip req.message).isEmpty
    · have h2' : pyStrip req.message = "" := (String.isEmpty_iff _).mp h2
      rw [if_pos h2]
      exact ⟨⟨fun _ => Or.inr h2', fun _ => ⟨_, rfl⟩⟩,
        fun hno => absurd (Or.inr h2') hno⟩
    · rw [if_neg h2]
      have h2' : ¬ pyStrip req.message = "" :=
        fun hc => h2 ((String.isEmpty_iff _).mpr hc)
      rw [if_neg (by simpa using hrole)]
      refine ⟨⟨fun ⟨d, hd⟩ => absurd hd (by simp), fun hor => ?_⟩, fun _ => ?_⟩
      · exact absurd hor (by simp [h1', h2'])
      · exact ⟨_, _, rfl, rfl⟩

/-- Witness for `c8_validation_and_acceptance` at a concrete well-formed
request submitted by a student. -/
theorem c8_validation_and_acceptance_witness :
    ("student" ∈ allowedRoles) ∧
    (¬ ((["a1"] : List String) = [] ∨ pyStrip "hello" = "")) ∧
    (∃ cid task,
      multi_chat ⟨"", "u1", "hello", ["a1"], []⟩ "student" "uuid-1" =
        MultiChatResult.accepted ⟨cid, "accepted",
          "Request accepted. Processing " ++
            toString (["a1"] : List String).length ++ " agents."⟩ task ∧
      task.conv_id = cid) :=
  ⟨by decide, by decide,
   (c8_validation_and_acceptance ⟨"", "u1", "hello", ["a1"], []⟩ "student"
     "uuid-1" (by decide)).2 (by decide)⟩

/-- **C10.** `conv_id` is required by the request model (a body without it
fails parsing); upon acceptance an empty-string `conv_id` is replaced by
the freshly generated UUID while a non-empty one is echoed unchanged, and
the background task is routed to the same conversation id as the
response. -/
theorem c10_conv_id_required_and_defaulted (r : RawRequest)
    (userRole freshUuid : String) :
    (r.conv_id = none → parseMultiChatRequest r = none) ∧
    (∀ req, parseMultiChatRequest r = some req →
      ∀ resp task,
        multi_chat req userRole freshUuid = .accepted resp task →
        resp.conv_id =
            (if req.conv_id = "" then freshUuid else req.conv_id) ∧
        task.conv_id = resp.conv_id) := by
  constructor
  · intro h
    unfold parseMultiChatRequest
    rw [h]
  · intro req _ resp task hacc
    unfold multi_chat at hacc
    by_cases h1 : req.agent_uids.isEmpty
    · rw [if_pos h1] at hacc
      exact absurd hacc (by simp)
    · rw [if_neg h1] at hacc
      by_cases h2 : (pyStrip req.message).isEmpty
      · rw [if_pos h2] at hacc
        exact absurd hacc (by simp)
      · rw [if_neg h2] at hacc
        by_cases h3 : userRole ∉ allowedRoles
        · rw [if_pos h3] at hacc
          exact absurd hacc (by simp)
        · rw [if_neg h3] at hacc
          obtain ⟨hresp, htask⟩ :=
            MultiChatResult.accepted.inj hacc
          constructor
          · rw [← hresp]
            show (if req.conv_id.isEmpty then freshUuid else req.conv_id) =
              (if req.conv_id = "" then freshUuid else req.conv_id)
            by_cases hc : req.conv_id.isEmpty
            · rw [if_pos hc, if_pos ((String.isEmpty_iff _).mp hc)]
            · rw [if_neg hc,
                if_neg (fun he => hc ((String.isEmpty_iff _).mpr he))]
          · rw [← hresp, ← htask]

/-- Witness for `c10_conv_id_required_and_defaulted`: a body missing
`conv_id` fails parsing, and a parsed request with a non-empty `conv_id`
is echoed unchanged into response and task. -/
theorem c10_conv_id_required_and_defaulted_witness :
    (parseMultiChatRequest ⟨none, some "u", some "hi", some ["a1"], none⟩ =
      none) ∧
    (parseMultiChatRequest
        ⟨some "c-7", some "u", some "hi", some ["a1"], none⟩ =
      some ⟨"c-7", "u", "hi", ["a1"], []⟩) ∧
    ((⟨"c-7", "accepted",
        "Request accepted. Processing " ++
          toString (["a1"] : List String).length ++ " agents."⟩ :
        MultiChatResponse).conv_id =
      (if ("c-7" : String) = "" then "uuid-9" else "c-7") ∧
     (⟨"c-7", "u", "hi", ["a1"], []⟩ : BackgroundTask).conv_id =
      (⟨"c-7", "accepted",
        "Request accepted. Processing " ++
          toString (["a1"] : List String).length ++ " agents."⟩ :
        MultiChatResponse).conv_id) :=
  ⟨(c10_conv_id_required_and_defaulted
      ⟨none, some "u", some "hi", some ["a1"], none⟩ "student" "uuid-9").1 rfl,
   by decide,
   (c10_conv_id_required_and_defaulted
      ⟨some "c-7", some "u", some "hi", some ["a1"], none⟩ "student"
      "uuid-9").2 ⟨"c-7", "u", "hi", ["a1"], []⟩ (by decide) _ _ (by decide)⟩

end OpenLingxi
